import Mathlib

/-!
# Verification of the Resume-Analyser matching core

A shallow embedding, in Lean 4, of the candidate-to-job matching core of the
Resume-Analyser repository, together with proofs and refutations of the frozen
specification claims.

Conventions used throughout:
* Python `float` values are modelled as exact rationals (`ℚ`); `round(x, n)`
  is modelled as round-half-to-even at `n` decimal places (CPython's rounding
  mode) over exact rationals.
* Python dicts are modelled as association lists in insertion order
  (CPython dicts preserve insertion order); `d[k]` on a missing key is a
  `KeyError`, modelled with `Option`/`Except`.
* `async` plays no role in the verified fragment: every audited function is
  awaited immediately, so the embedding is direct.
* Exceptions caught by `try/except` blocks are modelled with `Except`;
  the handler is applied to the error value.
-/

set_option maxRecDepth 100000

namespace ResumeAnalyser

/-- Python `max(a, b)` on two rationals, written so that the kernel can
evaluate it (it agrees with `max`, see `pymax_eq_max`). -/
def pymax (a b : ℚ) : ℚ := if a ≤ b then b else a

/-- Python `min(a, b)` on two rationals, written so that the kernel can
evaluate it (it agrees with `min`, see `pymin_eq_min`). -/
def pymin (a b : ℚ) : ℚ := if b ≤ a then b else a

/-- Round-half-to-even of a rational to an integer (CPython's `round` mode). -/
def roundHalfEven (q : ℚ) : ℤ :=
  let f := ⌊q⌋
  let r := q - f
  if r < 1/2 then f
  else if 1/2 < r then f + 1
  else if f % 2 = 0 then f else f + 1

/-- Python `round(q, 2)` over exact rationals. -/
def round2 (q : ℚ) : ℚ := (roundHalfEven (q * 100) : ℚ) / 100

/-- Python `round(q, 3)` over exact rationals. -/
def round3 (q : ℚ) : ℚ := (roundHalfEven (q * 1000) : ℚ) / 1000

/-! ## ML Sub-model Predictor (`backend/services/ml_models.py`)

`MLModelsService`: three regressors (`random_forest`, `knn`, `decision_tree`)
kept in the insertion-ordered dict `self.models`; the sklearn regressors and
the optional `StandardScaler` are opaque callables, modelled as functions held
in the state.  A regressor's `predict` may raise (modelled as `Except Unit ℚ`).
-/

/-- One education entry of `resume_data['education']`; only the `degree`
string is read by the ML features. -/
structure EduEntry where
  degree : String
deriving Repr, DecidableEq

/-- The slice of `resume_data` read by `ml_models.py`: `skills`,
`experience` (only its length is read) and `education`. -/
structure ResumeData where
  skills : List String
  experience : List String
  education : List EduEntry
deriving Repr, DecidableEq

/-- The slice of `job_requirements` read by `ml_models.py`. -/
structure JobReq where
  required_skills : List String
deriving Repr, DecidableEq

/-- State of `MLModelsService`: `self.models` (name ↦ regressor
`predict`, which may raise), the optional `self.scalers['scaler']`
transform, and `self.is_trained`. -/
structure MLState where
  models : List (String × (List ℚ → Except Unit ℚ))
  scaler : Option (List ℚ → List ℚ)
  is_trained : Bool

/-- `self.model_weights` from `MLModelsService.__init__`. -/
def model_weights : List (String × ℚ) :=
  [("random_forest", 4/10), ("knn", 3/10), ("decision_tree", 3/10)]

/-- Python `'needle' in haystack` on strings (substring containment). -/
def strIn (needle haystack : String) : Bool :=
  (List.range (haystack.length + 1)).any
    (fun i => (haystack.toList.drop i).take needle.length = needle.toList)

/-- `MLModelsService._extract_features` (ml_models.py:263-307): the 5-entry
feature vector [skills count, experience years, education level,
skill match score, job relevance score]. -/
def extract_features (rd : ResumeData) (jr : JobReq) : List ℚ :=
  let skills := rd.skills
  let experience_years : ℚ := rd.experience.length * 2
  let degree := (rd.education.headD ⟨""⟩).degree.toLower
  let edu_level : ℚ :=
    if rd.education.isEmpty then 0
    else if strIn "phd" degree || strIn "doctorate" degree then 4
    else if strIn "master" degree then 3
    else if strIn "bachelor" degree then 2
    else if strIn "associate" degree || strIn "diploma" degree then 1
    else 0
  let job_skills := jr.required_skills
  let skill_match_score : ℚ :=
    if job_skills.isEmpty then 0
    else ((job_skills.countP
        (fun s => (skills.map String.toLower).contains s.toLower) : ℚ)
      / job_skills.length) * 100
  let relevance_score : ℚ := pymin 100 ((skills.length : ℚ) * 5 + experience_years * 10)
  [ (skills.length : ℚ), experience_years, edu_level, skill_match_score, relevance_score ]

/-- `features_scaled` at ml_models.py:230-233: the scaler transform when
`'scaler' in self.scalers`, else the raw features. -/
def scaledFeatures (st : MLState) (rd : ResumeData) (jr : JobReq) : List ℚ :=
  match st.scaler with
  | some f => f (extract_features rd jr)
  | none => extract_features rd jr

/-- The `predictions` dict of `predict_candidate_score` (ml_models.py:236-243):
per model, the prediction clamped to [0,100], or the constant 50 when the
model's `predict` raises. -/
def modelPredictions (st : MLState) (rd : ResumeData) (jr : JobReq) :
    List (String × ℚ) :=
  st.models.map (fun m =>
    (m.1, match m.2 (scaledFeatures st rd jr) with
          | .ok p => pymax 0 (pymin 100 p)
          | .error _ => 50))

/-- Accumulating loop underlying the `ensemble_score` sum. -/
def ensembleSumAux (acc : ℚ) : List (String × ℚ) → Except Unit ℚ
  | [] => .ok acc
  | p :: rest =>
      match (model_weights.lookup p.1) with
      | some w => ensembleSumAux (acc + p.2 * w) rest
      | none => .error ()

/-- The `ensemble_score` sum of ml_models.py:246-249; a model name missing
from `self.model_weights` raises a `KeyError` (caught by the surrounding
`try`, which falls back). -/
def ensembleSum (preds : List (String × ℚ)) : Except Unit ℚ :=
  ensembleSumAux 0 preds

/-- `np.mean` over exact rationals. -/
def npMean (l : List ℚ) : ℚ := l.sum / l.length

/-- `np.var` (population variance) over exact rationals. -/
def npVar (l : List ℚ) : ℚ := ((l.map (fun x => (x - npMean l)^2)).sum) / l.length

/-- `MLModelsService._calculate_confidence` (ml_models.py:309-320). -/
def calculate_confidence (preds : List (String × ℚ)) : ℚ :=
  if preds.length < 2 then 1/2
  else round2 (pymax (1/10) (1 - npVar (preds.map Prod.snd) / 1000))

/-- Result dict of `predict_candidate_score` / `_fallback_scoring`
(the fields the claims are about). -/
structure PredictResult where
  overall_score : ℚ
  model_predictions : List (String × ℚ)
  confidence : ℚ
  model_type : String
deriving Repr, DecidableEq

/-- `MLModelsService._fallback_scoring` (ml_models.py:322-341). -/
def fallback_scoring (rd : ResumeData) (_jr : JobReq) : PredictResult :=
  let skills_score : ℚ := pymin 100 ((rd.skills.length : ℚ) * 10)
  let experience_score : ℚ := pymin 100 ((rd.experience.length : ℚ) * 20)
  let education_score : ℚ := pymin 100 ((rd.education.length : ℚ) * 25)
  let overall_score := skills_score * (4/10) + experience_score * (4/10)
    + education_score * (2/10)
  { overall_score := round2 overall_score
    model_predictions := [("fallback", overall_score)]
    confidence := 3/10
    model_type := "fallback" }

/-- `MLModelsService.predict_candidate_score` (ml_models.py:215-261): the
fallback when untrained; otherwise the weighted ensemble of the per-model
clamped predictions, with any exception (the `KeyError` on a weight lookup)
caught and sent to the fallback. -/
def predict_candidate_score (st : MLState) (rd : ResumeData) (jr : JobReq) :
    PredictResult :=
  if st.is_trained = false then fallback_scoring rd jr
  else
    match ensembleSum (modelPredictions st rd jr) with
    | .error _ => fallback_scoring rd jr
    | .ok s =>
        { overall_score := round2 s
          model_predictions := modelPredictions st rd jr
          confidence := calculate_confidence (modelPredictions st rd jr)
          model_type := "traditional_ml" }

/-- An empty candidate profile, used as a concrete test input. -/
def rd0 : ResumeData := ⟨[], [], []⟩

/-- An empty job-requirements record, used as a concrete test input. -/
def jr0 : JobReq := ⟨[]⟩

/-- A trained state whose three regressors return the constant predictions
50, 51 and 52 (non-zero variance), used as a concrete test input. -/
def stVar : MLState :=
  ⟨[("random_forest", fun _ => .ok 50), ("knn", fun _ => .ok 51),
    ("decision_tree", fun _ => .ok 52)], none, true⟩

/-- A trained state whose `knn` regressor raises on `predict` while the other
two return 80 and 60, used as a concrete test input. -/
def stFail : MLState :=
  ⟨[("random_forest", fun _ => .ok 80), ("knn", fun _ => .error ()),
    ("decision_tree", fun _ => .ok 60)], none, true⟩

/-! ## Ensemble Score Combiner (`backend/services/enhanced_nlp_service.py`)

`_calculate_ensemble_score(scores, confidence_scores)`: `scores` maps a
method name to `some s` when its value is a dict carrying an
`overall_score` key `s` (the `isinstance`/`in` test of line 241), else
`none`; `confidence_scores` maps method names to confidences.
-/

/-- The accumulating `for` loop of `_calculate_ensemble_score`
(enhanced_nlp_service.py:240-246), carrying `(weighted_sum, total_weight)`;
a method absent from `confidence_scores` defaults to confidence 0.5. -/
def ensembleLoop (confidence_scores : List (String × ℚ)) :
    List (String × Option ℚ) → ℚ × ℚ → ℚ × ℚ
  | [], acc => acc
  | (method, score?) :: rest, (ws, tw) =>
      match score? with
      | some score =>
          let confidence := (confidence_scores.lookup method).getD (1/2)
          ensembleLoop confidence_scores rest (ws + score * confidence, tw + confidence)
      | none => ensembleLoop confidence_scores rest (ws, tw)

/-- The (score, confidence) pairs that actually enter the two sums. -/
def ensembleEntries (scores : List (String × Option ℚ))
    (confidence_scores : List (String × ℚ)) : List (ℚ × ℚ) :=
  scores.filterMap (fun p =>
    p.2.map (fun s => (s, (confidence_scores.lookup p.1).getD (1/2))))

/-- `EnhancedNLPService._calculate_ensemble_score`
(enhanced_nlp_service.py:231-251). -/
def calculate_ensemble_score (scores : List (String × Option ℚ))
    (confidence_scores : List (String × ℚ)) : ℚ :=
  if scores.isEmpty then 0
  else
    let acc := ensembleLoop confidence_scores scores (0, 0)
    if acc.2 = 0 then 0 else round2 (acc.1 / acc.2)

/-! ## Ranking Store (`backend/routers/candidates.py`)

`get_candidate_rankings` (candidates.py:19-89) builds the cohort list with a
get-or-generate step per candidate against the `candidate_rankings`
collection, then sorts and renumbers.  The collection is modelled as a list
of rows in insertion order; `find_one` returns the first matching row.
-/

/-- The score bundle computed by `calculate_candidate_score` and copied into
the ranking document (candidates.py:121-124). -/
structure ScoreBundle where
  overall_score : ℚ
  skill_score : ℚ
  experience_score : ℚ
  education_score : ℚ
deriving Repr, DecidableEq

/-- A row of the `candidate_rankings` collection, as written by
`generate_candidate_ranking` (candidates.py:117-128). -/
structure RankingRow where
  row_id : String
  candidate_id : String
  job_id : String
  match_score : ℚ
  skills_match : ℚ
  experience_match : ℚ
  education_match : ℚ
  ranking_position : ℤ
  ranking_date : ℚ
deriving Repr, DecidableEq

/-- Mongo `find_one({"candidate_id": cid, "job_id": jid})` on the
`candidate_rankings` collection (candidates.py:64-67). -/
def findOneRanking (store : List RankingRow) (cid jid : String) :
    Option RankingRow :=
  store.find? (fun r => r.candidate_id == cid && r.job_id == jid)

/-- The `ranking_doc` built by `generate_candidate_ranking`
(candidates.py:116-128): the score bundle is copied into the row, the
position is initialised to 0 and the timestamp is `datetime.utcnow()`. -/
def mkRankingRow (cid jid : String) (scores : ScoreBundle)
    (new_id : String) (now : ℚ) : RankingRow :=
  { row_id := new_id
    candidate_id := cid
    job_id := jid
    match_score := scores.overall_score
    skills_match := scores.skill_score
    experience_match := scores.experience_score
    education_match := scores.education_score
    ranking_position := 0
    ranking_date := now }

/-- The get-or-generate step of `get_candidate_rankings` (candidates.py:63-76)
with `generate_candidate_ranking` (candidates.py:91-149): an existing row for
the (candidate, job) pair is returned as-is; otherwise a fresh row holding
the computed score bundle is inserted (`insert_one`, candidates.py:131).
Returns the updated collection and the row added to the cohort list. -/
def getOrGenerateRanking (store : List RankingRow) (cid jid : String)
    (scores : ScoreBundle) (new_id : String) (now : ℚ) :
    List RankingRow × RankingRow :=
  match findOneRanking store cid jid with
  | some existing => (store, existing)
  | none =>
      (store ++ [mkRankingRow cid jid scores new_id now],
       mkRankingRow cid jid scores new_id now)

/-- Number of rows of the collection for one (candidate, job) pair. -/
def pairCount (store : List RankingRow) (cid jid : String) : ℕ :=
  store.countP (fun r => r.candidate_id == cid && r.job_id == jid)

/-! ## Cohort reorder (`backend/routers/candidates.py:78-89`)

`rankings.sort(key=lambda x: x.match_score, reverse=True)` is CPython's
stable sort with the comparison reversed, modelled with the stable
`List.mergeSort`.  The loop then assigns position `i+1` to the `i`-th
ranking and persists it with `update_one({"_id": ranking.id}, ...)`.
-/

/-- The in-memory `CandidateRanking` pydantic model (models/resume.py:102-112).
The model declares no `id` field. -/
structure CandidateRanking where
  candidate_id : String
  job_id : String
  match_score : ℚ
  skills_match : ℚ
  experience_match : ℚ
  education_match : ℚ
  ranking_position : ℤ
  ranking_date : ℚ
deriving Repr, DecidableEq

/-- `rankings.sort(key=lambda x: x.match_score, reverse=True)`
(candidates.py:79): stable sort, match score descending. -/
def sortRankings (rankings : List CandidateRanking) : List CandidateRanking :=
  rankings.mergeSort (fun a b => decide (b.match_score ≤ a.match_score))

/-- The position assignment of the reorder loop (candidates.py:82-83):
the `i`-th ranking of the sorted cohort gets `ranking_position = i + 1`. -/
def renumberRankings (rankings : List CandidateRanking) : List CandidateRanking :=
  (sortRankings rankings).enum.map
    (fun p => { p.2 with ranking_position := (p.1 : ℤ) + 1 })

/-- The whole reorder step (candidates.py:78-89).  On a non-empty cohort the
loop's first `update_one` call evaluates `ranking.id`; `CandidateRanking`
declares no `id` attribute (models/resume.py:102-112), so the attribute
access raises `AttributeError` and the endpoint fails.  On an empty cohort
the loop body never runs and the empty list is returned. -/
def updateRankingPositions (rankings : List CandidateRanking) :
    Except String (List CandidateRanking) :=
  match renumberRankings rankings with
  | [] => .ok []
  | _ :: _ =>
      .error "AttributeError: 'CandidateRanking' object has no attribute 'id'"

/-- A ranking with candidate id "a" and match score 50, a concrete test
input. -/
def cexA : CandidateRanking := ⟨"a", "j", 50, 0, 0, 0, 0, 0⟩

/-- A ranking with candidate id "b" and the same match score 50, a concrete
test input. -/
def cexB : CandidateRanking := ⟨"b", "j", 50, 0, 0, 0, 0, 0⟩

/-! ## Bias Auditor (`backend/services/bias_service.py`)

The bias log `self.bias_logs` is a list of Python dicts; dicts are modelled
as insertion-ordered association lists of `PVal` values.  Timestamps are
rationals measured in days (`datetime.fromisoformat` of an entry's
`isoformat` string is the identity in this model), so the trailing-window
cutoff `datetime.now() - timedelta(days=w)` is `now - w`.
-/

/-- A Python value as stored in the bias log dictionaries. -/
inductive PVal where
  | num (q : ℚ)
  | str (s : String)
  | bool (b : Bool)
  | list (xs : List PVal)
  | dict (fields : List (String × PVal))

/-- Key lookup in a dict value (`d[k]` / `d.get(k)`). -/
def PVal.getKey? (v : PVal) (k : String) : Option PVal :=
  match v with
  | .dict d => d.lookup k
  | _ => none

/-- Python truthiness of a value (used by `if log['bias_detected']`). -/
def pyTruthy : PVal → Bool
  | .bool b => b
  | .num q => !(decide (q = 0))
  | .str s => !s.isEmpty
  | .list xs => !xs.isEmpty
  | .dict d => !d.isEmpty

/-- Arguments of one `_log_bias_detection` call (bias_service.py:277-282):
the wall-clock time, the candidate id (`candidate_data.get('candidate_id',
'unknown')`), the `bias_indicators` dict (bias type ↦ detail dict), and the
ranking score. -/
structure LogArgs where
  now : ℚ
  candidate_id : Option String
  indicators : List (String × List (String × PVal))
  ranking_score : ℚ

/-- `_calculate_overall_bias_score` (bias_service.py:251-257): 0 with no
indicators, else the mean of the indicators' `.get('confidence', 0)` values
capped at 1. -/
def overallBiasScore (inds : List (String × List (String × PVal))) : ℚ :=
  if inds.isEmpty then 0
  else
    pymin 1 (((inds.map (fun p =>
      match p.2.lookup "confidence" with
      | some (.num q) => q
      | _ => 0)).sum) / inds.length)

/-- The `log_entry` dict built by `_log_bias_detection`
(bias_service.py:284-291).  Its keys are exactly `timestamp`,
`candidate_id`, `bias_indicators`, `ranking_score`, `bias_score` and
`requires_review` — there is no `bias_detected` key. -/
def mkLogEntry (a : LogArgs) : PVal :=
  .dict
    [ ("timestamp", .num a.now),
      ("candidate_id", .str (a.candidate_id.getD "unknown")),
      ("bias_indicators", .dict (a.indicators.map (fun p => (p.1, .dict p.2)))),
      ("ranking_score", .num a.ranking_score),
      ("bias_score", .num (overallBiasScore a.indicators)),
      ("requires_review", .bool (decide (overallBiasScore a.indicators > 1/2))) ]

/-- The append-then-truncate of `_log_bias_detection` (bias_service.py:293-297):
append the entry, and when the log exceeds 1000 entries keep only the last
1000 (`self.bias_logs[-1000:]`). -/
def logAppendTrunc (logs : List PVal) (e : PVal) : List PVal :=
  let l := logs ++ [e]
  if 1000 < l.length then l.drop (l.length - 1000) else l

/-- `_log_bias_detection` (bias_service.py:277-297). -/
def logBiasDetection (logs : List PVal) (a : LogArgs) : List PVal :=
  logAppendTrunc logs (mkLogEntry a)

/-- The bias log after a sequence of `_log_bias_detection` calls, starting
from the empty `self.bias_logs` of `__init__`. -/
def biasLogsAfter (calls : List LogArgs) : List PVal :=
  calls.foldl logBiasDetection []

/-- `datetime.fromisoformat(log['timestamp']) >= cutoff_date`
(bias_service.py:304): a `KeyError` when the entry has no `timestamp` key, a
`TypeError` when its value is not a timestamp. -/
def entryInWindow (cutoff : ℚ) (log : PVal) : Except String Bool :=
  match log.getKey? "timestamp" with
  | some (.num t) => .ok (decide (cutoff ≤ t))
  | some _ => .error "TypeError: fromisoformat"
  | none => .error "KeyError: timestamp"

/-- The `recent_logs` list-comprehension filter (bias_service.py:303-304). -/
def filterRecent (cutoff : ℚ) : List PVal → Except String (List PVal)
  | [] => .ok []
  | log :: rest => do
      let b ← entryInWindow cutoff log
      let r ← filterRecent cutoff rest
      pure (if b then log :: r else r)

/-- `sum(1 for log in recent_logs if log['bias_detected'])`
(bias_service.py:317); `log['bias_detected']` raises `KeyError` when the
key is missing. -/
def sumBiasDetected : List PVal → Except String ℕ
  | [] => .ok 0
  | log :: rest => do
      let v ← match log.getKey? "bias_detected" with
        | some v => Except.ok v
        | none => Except.error "KeyError: bias_detected"
      let n ← sumBiasDetected rest
      pure (if pyTruthy v then n + 1 else n)

/-- Increment the count of `k` in an insertion-ordered counter
(a `defaultdict(int)`). -/
def bumpCount (counts : List (String × ℕ)) (k : String) : List (String × ℕ) :=
  if counts.any (fun p => p.1 == k) then
    counts.map (fun p => if p.1 == k then (p.1, p.2 + 1) else p)
  else counts ++ [(k, 1)]

/-- The `bias_types` loop (bias_service.py:321-324): per entry, count each
key of `log.get('bias_indicators', {})`. -/
def countBiasTypes (logs : List PVal) : List (String × ℕ) :=
  logs.foldl (fun counts log =>
    match log.getKey? "bias_indicators" with
    | some (.dict inds) => (inds.map Prod.fst).foldl bumpCount counts
    | _ => counts) []

/-- `np.mean([log.get('bias_score', 0) for log in recent_logs])`
(bias_service.py:327). -/
def avgBiasScore (logs : List PVal) : ℚ :=
  npMean (logs.map (fun log =>
    match log.getKey? "bias_score" with
    | some (.num q) => q
    | _ => 0))

/-- The `recommendations` list of the report (bias_service.py:330-336). -/
def reportRecommendations (rate : ℚ) (bias_types : List (String × ℕ))
    (total : ℕ) : List PVal :=
  (if 1/5 < rate then
    [PVal.str "High bias detection rate - review evaluation criteria"] else [])
  ++ (match bias_types.lookup "gender" with
      | some n => if (total : ℚ) * (1/10) < (n : ℚ) then
          [PVal.str "Gender bias detected - implement blind screening"] else []
      | none => [])
  ++ (match bias_types.lookup "name" with
      | some n => if (total : ℚ) * (1/10) < (n : ℚ) then
          [PVal.str "Name bias detected - use structured evaluation"] else []
      | none => [])

/-- The `try` body of `generate_bias_report` (bias_service.py:299-346). -/
def generate_bias_report_body (now window : ℚ) (logs : List PVal) :
    Except String PVal := do
  let cutoff := now - window
  let recent ← filterRecent cutoff logs
  if recent.isEmpty then
    return .dict
      [ ("period_days", .num window), ("total_candidates", .num 0),
        ("bias_detection_rate", .num 0), ("bias_types", .dict []),
        ("recommendations", .list []) ]
  let total := recent.length
  let detected ← sumBiasDetected recent
  let rate := (detected : ℚ) / (total : ℚ)
  let types := countBiasTypes recent
  let avg := avgBiasScore recent
  return .dict
    [ ("period_days", .num window), ("total_candidates", .num total),
      ("bias_detection_rate", .num (round3 rate)),
      ("average_bias_score", .num (round3 avg)),
      ("bias_types", .dict (types.map (fun p => (p.1, PVal.num (p.2 : ℚ))))),
      ("recommendations", .list (reportRecommendations rate types total)),
      ("requires_attention",
        .bool (decide (15/100 < rate) || decide (1/2 < avg))) ]

/-- `generate_bias_report` (bias_service.py:299-353): the `try` body, with
any exception caught and turned into the error dict of lines 348-353. -/
def generate_bias_report (now window : ℚ) (logs : List PVal) : PVal :=
  match generate_bias_report_body now window logs with
  | .ok r => r
  | .error e => .dict [("error", .str e), ("period_days", .num window)]

/-- `⟨n, none, [], n⟩` log-call arguments, a concrete test input family. -/
def logArgN (n : ℕ) : LogArgs := ⟨(n : ℚ), none, [], (n : ℚ)⟩

/-! ## Skill Ontology Graph (`backend/services/ontology_service.py`)

`nx.DiGraph`: a simple directed graph whose nodes carry attributes and whose
edges carry a `relationship` attribute; `add_node` on an existing node merges
attributes, `add_edge` implicitly adds missing endpoints with no attributes
and overwrites the attribute of an existing edge.  A node is modelled as its
name together with its `type` attribute (`none` when the node was created
implicitly by `add_edge`).
-/

/-- The attribute dict of one skill of `self.skill_ontology`
(ontology_service.py:35-69). -/
structure SkillAttrs where
  level : String
  category : String
  related : List String
deriving Repr, DecidableEq

/-- The attribute dict of one job role of `self.job_ontology`
(ontology_service.py:72-97). -/
structure JobAttrs where
  required_skills : List String
  preferred_skills : List String
  experience_level : String
  related_roles : List String
deriving Repr, DecidableEq

/-- `self.skill_ontology` (ontology_service.py:35-69): category group ↦
skill ↦ attributes, in source order. -/
def skill_ontology : List (String × List (String × SkillAttrs)) :=
  [ ("programming_languages",
      [ ("python", ⟨"intermediate", "backend", ["django", "flask", "pandas", "numpy"]⟩),
        ("javascript", ⟨"intermediate", "frontend", ["react", "node", "vue", "angular"]⟩),
        ("java", ⟨"intermediate", "backend", ["spring", "hibernate", "maven"]⟩),
        ("sql", ⟨"beginner", "database", ["mysql", "postgresql", "oracle"]⟩),
        ("go", ⟨"advanced", "backend", ["kubernetes", "docker", "microservices"]⟩),
        ("rust", ⟨"advanced", "systems", ["cargo", "tokio", "actix"]⟩) ]),
    ("frameworks",
      [ ("react", ⟨"intermediate", "frontend", ["javascript", "redux", "jsx"]⟩),
        ("django", ⟨"intermediate", "backend", ["python", "orm", "mvc"]⟩),
        ("spring", ⟨"intermediate", "backend", ["java", "hibernate", "mvc"]⟩),
        ("express", ⟨"intermediate", "backend", ["javascript", "node", "middleware"]⟩),
        ("flask", ⟨"beginner", "backend", ["python", "jinja2", "werkzeug"]⟩) ]),
    ("databases",
      [ ("mysql", ⟨"intermediate", "database", ["sql", "innodb", "replication"]⟩),
        ("postgresql", ⟨"intermediate", "database", ["sql", "json", "indexing"]⟩),
        ("mongodb", ⟨"intermediate", "nosql", ["document", "aggregation", "sharding"]⟩),
        ("redis", ⟨"intermediate", "cache", ["memory", "pubsub", "clustering"]⟩) ]),
    ("cloud_platforms",
      [ ("aws", ⟨"intermediate", "cloud", ["ec2", "s3", "lambda", "rds"]⟩),
        ("azure", ⟨"intermediate", "cloud", ["vm", "storage", "functions", "sql"]⟩),
        ("gcp", ⟨"intermediate", "cloud", ["compute", "storage", "functions", "bigquery"]⟩),
        ("docker", ⟨"intermediate", "containerization", ["kubernetes", "containers", "images"]⟩),
        ("kubernetes", ⟨"advanced", "orchestration", ["docker", "pods", "services", "deployments"]⟩) ]),
    ("tools",
      [ ("git", ⟨"beginner", "version_control", ["github", "gitlab", "branching"]⟩),
        ("jenkins", ⟨"intermediate", "ci_cd", ["pipeline", "automation", "deployment"]⟩),
        ("terraform", ⟨"advanced", "infrastructure", ["iac", "aws", "azure", "gcp"]⟩) ]) ]

/-- `self.job_ontology` (ontology_service.py:72-97). -/
def job_ontology : List (String × JobAttrs) :=
  [ ("software_engineer",
      ⟨["programming", "algorithms", "data_structures"],
       ["testing", "debugging", "code_review"], "mid",
       ["backend_engineer", "frontend_engineer", "fullstack_engineer"]⟩),
    ("data_scientist",
      ⟨["python", "statistics", "machine_learning"],
       ["pandas", "scikit-learn", "tensorflow"], "mid",
       ["data_analyst", "ml_engineer", "research_scientist"]⟩),
    ("devops_engineer",
      ⟨["docker", "kubernetes", "aws"],
       ["terraform", "jenkins", "monitoring"], "mid",
       ["sre", "cloud_engineer", "platform_engineer"]⟩),
    ("frontend_developer",
      ⟨["javascript", "html", "css"],
       ["react", "vue", "angular"], "junior",
       ["ui_developer", "ux_developer", "web_developer"]⟩) ]

/-- An `nx.DiGraph` restricted to what the service reads: node names with
their `type` attribute, and directed edges with their `relationship`
attribute. -/
structure KG where
  nodes : List (String × Option String)
  edges : List ((String × String) × String)
deriving Repr, DecidableEq

/-- The node names of a graph, in insertion order. -/
def kgNodeNames (g : KG) : List String := g.nodes.map Prod.fst

/-- `name in graph`. -/
def kgHasNode (g : KG) (name : String) : Bool :=
  g.nodes.any (fun p => p.1 == name)

/-- `add_node(name, type=ty, ...)`: update the attributes of an existing
node, else append a new node. -/
def addNodeKG (g : KG) (name : String) (ty : Option String) : KG :=
  if kgHasNode g name then
    ⟨g.nodes.map (fun p => if p.1 == name then (p.1, ty) else p), g.edges⟩
  else ⟨g.nodes ++ [(name, ty)], g.edges⟩

/-- `add_edge` adds missing endpoints as attribute-less nodes. -/
def ensureNode (g : KG) (name : String) : KG :=
  if kgHasNode g name then g else ⟨g.nodes ++ [(name, none)], g.edges⟩

/-- `add_edge(u, v, relationship=rel)`: implicitly add missing endpoints,
and set (or overwrite) the edge's attribute. -/
def addEdgeKG (g : KG) (u v : String) (rel : String) : KG :=
  let g := ensureNode (ensureNode g u) v
  if g.edges.any (fun e => e.1.1 == u && e.1.2 == v) then
    ⟨g.nodes, g.edges.map (fun e => if e.1.1 == u && e.1.2 == v then (e.1, rel) else e)⟩
  else ⟨g.nodes, g.edges ++ [((u, v), rel)]⟩

/-- `OntologyService._build_knowledge_graph` (ontology_service.py:102-143):
skill nodes, then job nodes, then `related`/`belongs_to` edges (a `related`
edge only when the target is already a graph node), then `requires`/`prefers`
edges (only when the skill is a graph node). -/
def buildKnowledgeGraph : KG :=
  let g : KG := ⟨[], []⟩
  let g := skill_ontology.foldl (fun g cat =>
    cat.2.foldl (fun g sk => addNodeKG g sk.1 (some "skill")) g) g
  let g := job_ontology.foldl (fun g jb => addNodeKG g jb.1 (some "job")) g
  let g := skill_ontology.foldl (fun g cat =>
    cat.2.foldl (fun g sk =>
      let g := sk.2.related.foldl (fun g rel =>
        if kgHasNode g rel then addEdgeKG g sk.1 rel "related" else g) g
      addEdgeKG g sk.1 cat.1 "belongs_to") g) g
  job_ontology.foldl (fun g jb =>
    let g := jb.2.required_skills.foldl (fun g sk =>
      if kgHasNode g sk then addEdgeKG g jb.1 sk "requires" else g) g
    jb.2.preferred_skills.foldl (fun g sk =>
      if kgHasNode g sk then addEdgeKG g jb.1 sk "prefers" else g) g) g

/-- `self.knowledge_graph` of the global `ontology_service` instance. -/
def knowledge_graph : KG := buildKnowledgeGraph

/-- Directed edge test, ignoring the relationship kind (as
`nx.shortest_path_length` does). -/
def kgEdgeB (g : KG) (u v : String) : Bool :=
  g.edges.any (fun e => e.1.1 == u && e.1.2 == v)

/-- One breadth expansion: add every graph node with an edge from the
current set. -/
def reachStep (g : KG) (R : List String) : List String :=
  R ++ (kgNodeNames g).filter (fun v => !R.contains v && R.any (fun u => kgEdgeB g u v))

/-- The nodes reachable from `a` within `n` directed hops. -/
def reach (g : KG) (a : String) : ℕ → List String
  | 0 => [a]
  | n + 1 => reachStep g (reach g a n)

/-- Breadth-first search for the least `k` with `b` reachable in `k` hops,
stopping when the reachable set stabilises (no path) or the fuel runs out. -/
def bfsAux (g : KG) (b : String) : ℕ → List String → ℕ → Option ℕ
  | 0, _, _ => none
  | fuel + 1, R, k =>
      if R.contains b then some k
      else
        let R2 := reachStep g R
        if R2 = R then none else bfsAux g b fuel R2 (k + 1)

/-- `nx.shortest_path_length(G, a, b)` on the directed graph: `some L` for
the least number of edges on a directed path from `a` to `b`, `none` when no
path exists (`NetworkXNoPath`). -/
def shortestPathLength (g : KG) (a b : String) : Option ℕ :=
  bfsAux g b ((kgNodeNames g).length + 1) [a] 0

/-- `OntologyService.calculate_skill_similarity` (ontology_service.py:198-216). -/
def calculate_skill_similarity (g : KG) (a b : String) : ℚ :=
  if a = b then 1
  else if !kgHasNode g a || !kgHasNode g b then 0
  else
    match shortestPathLength g a b with
    | some L => 1 / (1 + (L : ℚ))
    | none => 0

/-- `OntologyService.find_related_skills` (ontology_service.py:182-196):
the skill-typed nodes within `max_depth` directed hops, excluding the
source.  (The source returns `list(set(...))`, whose iteration order CPython
leaves unspecified; this model fixes the deterministic breadth-first order —
no claim depends on the order.) -/
def findRelatedSkills (g : KG) (skill : String) (max_depth : ℕ) : List String :=
  if !kgHasNode g skill then []
  else (reach g skill max_depth).filter (fun n =>
    !(n == skill) && ((g.nodes.lookup n).getD none == some "skill"))

/-- One entry of the `_find_semantic_matches` result
(ontology_service.py:264-282). -/
structure SkillMatch where
  candidate_skill : String
  target_skill : String
  similarity : ℚ
  match_type : String
deriving Repr, DecidableEq

/-- The inner candidate loop of `_find_semantic_matches`
(ontology_service.py:258-282), carrying `best_match` and `best_similarity`;
an exact (case-insensitive) match breaks out of the loop. -/
def bestMatchLoop (g : KG) (target : String) :
    List String → Option SkillMatch → ℚ → Option SkillMatch
  | [], best, _ => best
  | c :: rest, best, best_sim =>
      if c.toLower = target.toLower then some ⟨c, target, 1, "exact"⟩
      else
        let sim := calculate_skill_similarity g c target
        if best_sim < sim ∧ 3/10 < sim then
          bestMatchLoop g target rest (some ⟨c, target, sim, "semantic"⟩) sim
        else bestMatchLoop g target rest best best_sim

/-- `OntologyService._find_semantic_matches` (ontology_service.py:253-287). -/
def findSemanticMatches (g : KG) (candidate_skills target_skills : List String) :
    List SkillMatch :=
  target_skills.filterMap (fun t => bestMatchLoop g t candidate_skills none 0)

/-- One entry of the `_identify_skill_gaps` result
(ontology_service.py:311-315). -/
structure SkillGap where
  missing_skill : String
  related_candidate_skills : List String
  learning_path : List String
deriving Repr, DecidableEq

/-- `OntologyService._identify_skill_gaps` (ontology_service.py:289-317): a
required skill with no exact (case-insensitive) and no semantic
(similarity > 0.3) candidate match becomes a gap entry carrying the related
candidate skills and the first 3 related skills as a learning path. -/
def identifySkillGaps (g : KG) (candidate_skills required_skills : List String) :
    List SkillGap :=
  required_skills.filterMap (fun req =>
    if candidate_skills.any (fun c => c.toLower == req.toLower) then none
    else if candidate_skills.any
        (fun c => decide ((3:ℚ)/10 < calculate_skill_similarity g c req)) then none
    else
      let related := findRelatedSkills g req 2
      some ⟨req, candidate_skills.filter (fun s => related.contains s), related.take 3⟩)

/-- A directed path from `a` of `n` edges ending at the second argument;
edges are those of the graph, regardless of relationship kind. -/
inductive HasPathLen (g : KG) (a : String) : String → ℕ → Prop where
  | refl : HasPathLen g a a 0
  | tail {b c : String} {n : ℕ} :
      HasPathLen g a b n → kgEdgeB g b c = true → HasPathLen g a c (n + 1)

/-- `L` is the directed shortest-path length from `a` to `b`. -/
def IsShortestPathLen (g : KG) (a b : String) (L : ℕ) : Prop :=
  HasPathLen g a b L ∧ ∀ m, HasPathLen g a b m → L ≤ m

/-! ## Theorems: rounding and ordering helpers -/

theorem pymax_eq_max (a b : ℚ) : pymax a b = max a b := by
  unfold pymax
  split
  · exact (max_eq_right (by assumption)).symm
  · exact (max_eq_left (le_of_not_le (by assumption))).symm

theorem pymin_eq_min (a b : ℚ) : pymin a b = min a b := by
  unfold pymin
  split
  · exact (min_eq_right (by assumption)).symm
  · exact (min_eq_left (le_of_not_le (by assumption))).symm

theorem roundHalfEven_intCast (n : ℤ) : roundHalfEven (n : ℚ) = n := by
  unfold roundHalfEven
  norm_num

theorem round2_intCast (n : ℤ) : round2 (n : ℚ) = n := by
  unfold round2
  have : ((n : ℚ) * 100) = ((n * 100 : ℤ) : ℚ) := by push_cast; ring
  rw [this, roundHalfEven_intCast]
  push_cast
  ring

theorem round2_natCast (n : ℕ) : round2 (n : ℚ) = n := by
  have := round2_intCast (n : ℤ)
  push_cast at this ⊢
  exact this

/-! ## Theorems: ML Sub-model Predictor -/

/-- The fallback overall score is an integer, so `round(·, 2)` is the
identity on it. -/
theorem fallback_overall_int (rd : ResumeData) :
    round2 (pymin 100 ((rd.skills.length : ℚ) * 10) * (4/10)
      + pymin 100 ((rd.experience.length : ℚ) * 20) * (4/10)
      + pymin 100 ((rd.education.length : ℚ) * 25) * (2/10))
    = pymin 100 ((rd.skills.length : ℚ) * 10) * (4/10)
      + pymin 100 ((rd.experience.length : ℚ) * 20) * (4/10)
      + pymin 100 ((rd.education.length : ℚ) * 25) * (2/10) := by
  have hs : pymin 100 ((rd.skills.length : ℚ) * 10) = ((10 * min 10 rd.skills.length : ℕ) : ℚ) := by
    rw [pymin_eq_min]
    have h1 : 10 * min 10 rd.skills.length = min 100 (rd.skills.length * 10) := by omega
    rw [h1]
    push_cast
    ring_nf
  have he : pymin 100 ((rd.experience.length : ℚ) * 20) = ((20 * min 5 rd.experience.length : ℕ) : ℚ) := by
    rw [pymin_eq_min]
    have h1 : 20 * min 5 rd.experience.length = min 100 (rd.experience.length * 20) := by omega
    rw [h1]
    push_cast
    ring_nf
  have hd : pymin 100 ((rd.education.length : ℚ) * 25) = ((25 * min 4 rd.education.length : ℕ) : ℚ) := by
    rw [pymin_eq_min]
    have h1 : 25 * min 4 rd.education.length = min 100 (rd.education.length * 25) := by omega
    rw [h1]
    push_cast
    ring_nf
  rw [hs, he, hd]
  have : ((10 * min 10 rd.skills.length : ℕ) : ℚ) * (4/10)
      + ((20 * min 5 rd.experience.length : ℕ) : ℚ) * (4/10)
      + ((25 * min 4 rd.education.length : ℕ) : ℚ) * (2/10)
      = (((4 * min 10 rd.skills.length + 8 * min 5 rd.experience.length
          + 5 * min 4 rd.education.length : ℕ)) : ℚ) := by
    push_cast
    ring
  rw [this, round2_natCast]

/-- C8: whenever no trained model is available (`is_trained` is false),
`predict_candidate_score` returns the deterministic fallback
`min(100, skills*10)*0.4 + min(100, experience*20)*0.4 +
min(100, education*25)*0.2` with confidence exactly 0.3. -/
theorem C8_fallback_scoring (st : MLState) (rd : ResumeData) (jr : JobReq)
    (h : st.is_trained = false) :
    (predict_candidate_score st rd jr).overall_score
      = pymin 100 ((rd.skills.length : ℚ) * 10) * (4/10)
        + pymin 100 ((rd.experience.length : ℚ) * 20) * (4/10)
        + pymin 100 ((rd.education.length : ℚ) * 25) * (2/10)
    ∧ (predict_candidate_score st rd jr).confidence = 3/10 := by
  unfold predict_candidate_score
  rw [h]
  simp only [if_pos rfl]
  constructor
  · exact fallback_overall_int rd
  · rfl

/-- Witness for C8 at a concrete untrained state: a candidate with 3 skills,
1 experience entry and 1 education entry scores 12 + 8 + 5 = 25. -/
theorem C8_fallback_scoring_witness :
    (predict_candidate_score
        ⟨[], none, false⟩
        ⟨["python", "sql", "git"], ["dev"], [⟨"BSc"⟩]⟩
        ⟨["python"]⟩).overall_score = 25
    ∧ (predict_candidate_score
        ⟨[], none, false⟩
        ⟨["python", "sql", "git"], ["dev"], [⟨"BSc"⟩]⟩
        ⟨["python"]⟩).confidence = 3/10 := by
  have h := C8_fallback_scoring
    ⟨[], none, false⟩
    ⟨["python", "sql", "git"], ["dev"], [⟨"BSc"⟩]⟩
    ⟨["python"]⟩ rfl
  refine ⟨?_, h.2⟩
  rw [h.1]
  with_unfolding_all rfl

/-- In an association list with distinct keys, `lookup` finds any member. -/
theorem lookup_eq_of_mem_of_nodup {α β : Type} [DecidableEq α]
    {l : List (α × β)} {k : α} {v : β}
    (hnodup : (l.map Prod.fst).Nodup) (hmem : (k, v) ∈ l) :
    l.lookup k = some v := by
  induction l with
  | nil => cases hmem
  | cons a t ih =>
    rcases List.mem_cons.mp hmem with h | h
    · subst h
      simp [List.lookup]
    · have hk : a.1 ≠ k := by
        intro hak
        have : k ∈ t.map Prod.fst := List.mem_map.mpr ⟨(k, v), h, rfl⟩
        rw [List.map_cons, List.nodup_cons, hak] at hnodup
        exact hnodup.1 this
      have hbeq : (k == a.1) = false := beq_false_of_ne (Ne.symm hk)
      simp only [List.lookup, hbeq]
      exact ih (by rw [List.map_cons, List.nodup_cons] at hnodup; exact hnodup.2) h

/-- When every prediction's model name has a weight, the ensemble fold
succeeds and equals the plain weighted sum. -/
theorem ensembleSum_eq_sum (preds : List (String × ℚ))
    (hw : ∀ p ∈ preds, (model_weights.lookup p.1).isSome) :
    ensembleSum preds
      = .ok ((preds.map (fun p => p.2 * (model_weights.lookup p.1).getD 0)).sum) := by
  have main : ∀ (l : List (String × ℚ)),
      (∀ p ∈ l, (model_weights.lookup p.1).isSome) → ∀ (acc : ℚ),
      ensembleSumAux acc l
      = .ok (acc + (l.map (fun p => p.2 * (model_weights.lookup p.1).getD 0)).sum) := by
    intro l
    induction l with
    | nil => intro _ acc; simp [ensembleSumAux]
    | cons a t ih =>
      intro hall acc
      have ha := hall a (List.mem_cons_self a t)
      obtain ⟨w, hw'⟩ := Option.isSome_iff_exists.mp ha
      have hstep : ensembleSumAux acc (a :: t) = ensembleSumAux (acc + a.2 * w) t := by
        simp only [ensembleSumAux, hw']
      rw [hstep, ih (fun p hp => hall p (List.mem_cons_of_mem a hp)) (acc + a.2 * w)]
      simp only [List.map_cons, List.sum_cons, hw', Option.getD_some]
      exact congrArg Except.ok (by ring)
  have := main preds hw 0
  rw [ensembleSum, this, zero_add]

/-- Splitting the weighted sum of an association list with distinct keys at
one of its members. -/
theorem sum_split_at_key {k : String} {v : ℚ}
    (f : String × ℚ → ℚ) (l : List (String × ℚ))
    (hnodup : (l.map Prod.fst).Nodup) (hmem : (k, v) ∈ l) :
    (l.map f).sum = f (k, v) + ((l.filter (fun p => p.1 != k)).map f).sum := by
  induction l with
  | nil => cases hmem
  | cons a t ih =>
    rw [List.map_cons, List.nodup_cons] at hnodup
    rcases List.mem_cons.mp hmem with h | h
    · subst h
      have hkeys : ∀ p ∈ t, (p.1 != k) = true := by
        intro p hp
        have : p.1 ≠ k := by
          intro hpk
          exact hnodup.1 (hpk ▸ List.mem_map.mpr ⟨p, hp, rfl⟩)
        simpa using this
      simp only [List.filter_cons]
      rw [show ((k, v).1 != k) = false by simp]
      rw [List.filter_eq_self.mpr hkeys]
      simp
    · have hak : a.1 ≠ k := by
        intro hak
        exact hnodup.1 (hak ▸ List.mem_map.mpr ⟨(k, v), h, rfl⟩)
      have hfa : (a.1 != k) = true := by simpa using hak
      simp only [List.filter_cons, hfa, if_true, List.map_cons, List.sum_cons]
      rw [ih hnodup.2 h]
      ring

/-- C10: during ensemble prediction with trained models, a regressor whose
`predict` raises is recorded as the constant 50 and still contributes to the
fixed-weight ensemble sum at its model's full weight, rather than being
omitted. -/
theorem C10_failed_model_contributes (st : MLState) (rd : ResumeData) (jr : JobReq)
    (n : String) (f : List ℚ → Except Unit ℚ)
    (ht : st.is_trained = true)
    (hmem : (n, f) ∈ st.models)
    (hnodup : (st.models.map Prod.fst).Nodup)
    (hfail : f (scaledFeatures st rd jr) = .error ())
    (hw : ∀ m ∈ st.models, (model_weights.lookup m.1).isSome) :
    (modelPredictions st rd jr).lookup n = some 50
    ∧ (predict_candidate_score st rd jr).overall_score
        = round2 (50 * ((model_weights.lookup n).getD 0)
            + (((modelPredictions st rd jr).filter (fun p => p.1 != n)).map
                (fun p => p.2 * (model_weights.lookup p.1).getD 0)).sum) := by
  have hkeys : (modelPredictions st rd jr).map Prod.fst = st.models.map Prod.fst := by
    unfold modelPredictions
    rw [List.map_map]
    rfl
  have hpred50 : (n, (50 : ℚ)) ∈ modelPredictions st rd jr := by
    unfold modelPredictions
    refine List.mem_map.mpr ⟨(n, f), hmem, ?_⟩
    simp [hfail]
  have hnodup' : ((modelPredictions st rd jr).map Prod.fst).Nodup := by
    rw [hkeys]; exact hnodup
  have hw' : ∀ p ∈ modelPredictions st rd jr, (model_weights.lookup p.1).isSome := by
    intro p hp
    unfold modelPredictions at hp
    obtain ⟨m, hm, hmp⟩ := List.mem_map.mp hp
    have : p.1 = m.1 := by rw [← hmp]
    rw [this]
    exact hw m hm
  refine ⟨lookup_eq_of_mem_of_nodup hnodup' hpred50, ?_⟩
  unfold predict_candidate_score
  rw [ht]
  simp only [Bool.true_eq_false, if_false]
  rw [ensembleSum_eq_sum _ hw']
  have hsplit := sum_split_at_key
    (fun p => p.2 * (model_weights.lookup p.1).getD 0)
    (modelPredictions st rd jr) hnodup' hpred50
  simp only [hsplit]

/-- Witness for C10: in `stFail` the `knn` regressor raises; its prediction
is recorded as 50 and the ensemble is
`round2(80*0.4 + 50*0.3 + 60*0.3) = 65`. -/
theorem C10_failed_model_contributes_witness :
    (modelPredictions stFail rd0 jr0).lookup "knn" = some 50
    ∧ (predict_candidate_score stFail rd0 jr0).overall_score
        = round2 (50 * ((model_weights.lookup "knn").getD 0)
            + (((modelPredictions stFail rd0 jr0).filter (fun p => p.1 != "knn")).map
                (fun p => p.2 * (model_weights.lookup p.1).getD 0)).sum) := by
  exact C10_failed_model_contributes stFail rd0 jr0 "knn" (fun _ => .error ())
    rfl (List.Mem.tail _ (List.Mem.head _)) (by decide) rfl (by decide)

/-- C9 (counterexample to the claim as stated): with three trained models
predicting 50, 51 and 52, the code's confidence is
`round(max(0.1, 1 - (2/3)/1000), 2) = 1.0`, which differs from the claimed
unrounded value `max(0.1, 1 - variance/1000) = 1499/1500`. -/
theorem C9_confidence_counterexample :
    (predict_candidate_score stVar rd0 jr0).confidence = 1
    ∧ pymax (1/10 : ℚ)
        (1 - npVar ((modelPredictions stVar rd0 jr0).map Prod.snd) / 1000)
      = 1499/1500
    ∧ (1 : ℚ) ≠ 1499/1500 := by
  refine ⟨by with_unfolding_all rfl, by with_unfolding_all rfl, by norm_num⟩

/-- C9 (amended): when trained models exist and the ensemble sum succeeds,
the returned confidence is `round(max(0.1, 1 - variance(predictions)/1000), 2)`
when there are at least two model predictions, and the constant 0.5 when
there are fewer than two; `predictions` are the per-model clamped
predictions. -/
theorem C9_confidence_amended (st : MLState) (rd : ResumeData) (jr : JobReq) (s : ℚ)
    (ht : st.is_trained = true)
    (hok : ensembleSum (modelPredictions st rd jr) = .ok s) :
    (predict_candidate_score st rd jr).confidence
      = if st.models.length < 2 then 1/2
        else round2 (pymax (1/10)
          (1 - npVar ((modelPredictions st rd jr).map Prod.snd) / 1000)) := by
  unfold predict_candidate_score
  rw [ht]
  simp only [Bool.true_eq_false, if_false]
  rw [hok]
  unfold calculate_confidence
  have hlen : (modelPredictions st rd jr).length = st.models.length := by
    unfold modelPredictions
    exact List.length_map _ _
  rw [hlen]

/-- Witness for C9 (amended) at the concrete three-model state `stVar`. -/
theorem C9_confidence_amended_witness :
    (predict_candidate_score stVar rd0 jr0).confidence
      = if stVar.models.length < 2 then 1/2
        else round2 (pymax (1/10)
          (1 - npVar ((modelPredictions stVar rd0 jr0).map Prod.snd) / 1000)) := by
  exact C9_confidence_amended stVar rd0 jr0 (509/10) rfl (by with_unfolding_all rfl)

/-! ## Theorems: Ensemble Score Combiner -/

/-- The combiner loop computes the two sums over `ensembleEntries`. -/
theorem ensembleLoop_eq (confs : List (String × ℚ))
    (l : List (String × Option ℚ)) (ws tw : ℚ) :
    ensembleLoop confs l (ws, tw)
      = (ws + ((ensembleEntries l confs).map (fun e => e.1 * e.2)).sum,
         tw + ((ensembleEntries l confs).map Prod.snd).sum) := by
  induction l generalizing ws tw with
  | nil => simp [ensembleLoop, ensembleEntries]
  | cons a rest ih =>
    obtain ⟨method, score?⟩ := a
    cases score? with
    | none =>
      simp only [ensembleLoop, ih, ensembleEntries, List.filterMap_cons, Option.map_none']
    | some s =>
      simp only [ensembleLoop, ih, ensembleEntries, List.filterMap_cons, Option.map_some',
        List.map_cons, List.sum_cons, Prod.mk.injEq]
      constructor <;> ring

/-- C6 (counterexample to the claim as stated): a single source with
confidence 1.0 and score 100/3 yields `round(100/3, 2) = 33.33`, not the
claimed `overall == S = 100/3`. -/
theorem C6_ensemble_counterexample :
    calculate_ensemble_score [("rule_based", some (100/3))] [("rule_based", 1)]
      = 3333/100
    ∧ (3333/100 : ℚ) ≠ 100/3 := by
  constructor
  · with_unfolding_all rfl
  · norm_num

/-- C6 (amended): the combiner returns
`round2(Σ score_i*confidence_i / Σ confidence_i)`, and 0 when the input set
is empty or the total confidence is 0; a single source with confidence 1.0
and score S yields `round2 S` (hence S whenever S has at most two decimal
places), and two sources with equal non-zero confidence yield
`round2(mean(S1, S2))`. -/
theorem C6_ensemble_amended :
    (∀ confs, calculate_ensemble_score [] confs = 0)
    ∧ (∀ scores confs, ((ensembleEntries scores confs).map Prod.snd).sum = 0 →
        calculate_ensemble_score scores confs = 0)
    ∧ (∀ scores confs, ((ensembleEntries scores confs).map Prod.snd).sum ≠ 0 →
        calculate_ensemble_score scores confs
          = round2 (((ensembleEntries scores confs).map (fun e => e.1 * e.2)).sum
              / ((ensembleEntries scores confs).map Prod.snd).sum))
    ∧ (∀ m S, calculate_ensemble_score [(m, some S)] [(m, 1)] = round2 S)
    ∧ (∀ m1 m2 S1 S2 c, c ≠ 0 →
        calculate_ensemble_score [(m1, some S1), (m2, some S2)] [(m1, c), (m2, c)]
          = round2 ((S1 + S2) / 2)) := by
  have hformula : ∀ (scores : List (String × Option ℚ)) (confs : List (String × ℚ)),
      ((ensembleEntries scores confs).map Prod.snd).sum ≠ 0 →
      calculate_ensemble_score scores confs
        = round2 (((ensembleEntries scores confs).map (fun e => e.1 * e.2)).sum
            / ((ensembleEntries scores confs).map Prod.snd).sum) := by
    intro scores confs hne
    have hnonempty : scores.isEmpty = false := by
      cases scores with
      | nil => simp [ensembleEntries] at hne
      | cons a t => rfl
    unfold calculate_ensemble_score
    rw [hnonempty]
    simp only [Bool.false_eq_true, if_false, ensembleLoop_eq, zero_add]
    rw [if_neg hne]
  have hzero : ∀ (scores : List (String × Option ℚ)) (confs : List (String × ℚ)),
      ((ensembleEntries scores confs).map Prod.snd).sum = 0 →
      calculate_ensemble_score scores confs = 0 := by
    intro scores confs heq
    unfold calculate_ensemble_score
    cases hs : scores.isEmpty with
    | true => simp
    | false =>
      simp only [Bool.false_eq_true, if_false, ensembleLoop_eq, zero_add]
      rw [if_pos heq]
  refine ⟨fun confs => rfl, hzero, hformula, ?_, ?_⟩
  · intro m S
    have h := hformula [(m, some S)] [(m, 1)] (by simp [ensembleEntries])
    rw [h]
    congr 1
    simp [ensembleEntries]
  · intro m1 m2 S1 S2 c hc
    have hent : ensembleEntries [(m1, some S1), (m2, some S2)] [(m1, c), (m2, c)]
        = [(S1, c), (S2, ((([(m1, c), (m2, c)] : List (String × ℚ)).lookup m2).getD (1/2)))] := by
      simp [ensembleEntries]
    have hc2 : (([(m1, c), (m2, c)] : List (String × ℚ)).lookup m2).getD (1/2) = c := by
      by_cases h12 : m1 = m2
      · subst h12
        simp [List.lookup]
      · have : (m2 == m1) = false := beq_false_of_ne (Ne.symm h12)
        simp [List.lookup, this]
    have h := hformula [(m1, some S1), (m2, some S2)] [(m1, c), (m2, c)] (by
      rw [hent, hc2]
      simp only [List.map_cons, List.map_nil, List.sum_cons, List.sum_nil]
      intro hcc
      apply hc
      linarith)
    rw [h, hent, hc2]
    congr 1
    simp only [List.map_cons, List.map_nil, List.sum_cons, List.sum_nil, add_zero]
    have h2c : c + c ≠ 0 := by
      intro hcc
      apply hc
      linarith
    field_simp
    ring

/-- Witness for C6 (amended): a lone source with confidence 1.0 and score 80
yields 80; two sources with confidence 0.5 and scores 70 and 90 yield 80. -/
theorem C6_ensemble_amended_witness :
    calculate_ensemble_score [("rule_based", some 80)] [("rule_based", 1)] = round2 80
    ∧ calculate_ensemble_score [("rule_based", some 70), ("ml_ensemble", some 90)]
        [("rule_based", 1/2), ("ml_ensemble", 1/2)] = round2 ((70 + 90) / 2) := by
  exact ⟨C6_ensemble_amended.2.2.2.1 "rule_based" 80,
    C6_ensemble_amended.2.2.2.2 "rule_based" "ml_ensemble" 70 90 (1/2) (by norm_num)⟩

/-! ## Theorems: Ranking Store -/

/-- `find?` skips a prefix in which nothing matches. -/
theorem find?_append_of_none {α : Type} (p : α → Bool) (l1 l2 : List α)
    (h : l1.find? p = none) : (l1 ++ l2).find? p = l2.find? p := by
  induction l1 with
  | nil => rfl
  | cons a t ih =>
    cases hpa : p a with
    | true => simp [List.find?_cons, hpa] at h
    | false =>
      simp only [List.find?_cons, hpa] at h
      simp only [List.cons_append, List.find?_cons, hpa]
      exact ih h

/-- C4 (counterexample to the claim as stated): starting from an empty
collection, inserting a ranking for ("c", "j") with overall score 80 at time
1 and then performing the upsert again with overall score 90 at time 2 leaves
the first row in place: the read returns score 80 and timestamp 1, not the
latest values. -/
theorem C4_upsert_counterexample :
    ((findOneRanking
        ((getOrGenerateRanking
            ((getOrGenerateRanking [] "c" "j" ⟨80, 70, 60, 50⟩ "id1" 1).1)
            "c" "j" ⟨90, 95, 85, 75⟩ "id2" 2).1)
        "c" "j").map RankingRow.match_score = some 80
      ∧ (80 : ℚ) ≠ 90)
    ∧ ((findOneRanking
        ((getOrGenerateRanking
            ((getOrGenerateRanking [] "c" "j" ⟨80, 70, 60, 50⟩ "id1" 1).1)
            "c" "j" ⟨90, 95, 85, 75⟩ "id2" 2).1)
        "c" "j").map RankingRow.ranking_date = some 1
      ∧ (1 : ℚ) ≠ 2) := by
  refine ⟨⟨by with_unfolding_all rfl, by norm_num⟩,
    ⟨by with_unfolding_all rfl, by norm_num⟩⟩

/-- The get-or-generate step when a row for the pair exists. -/
theorem getOrGenerate_of_found {store : List RankingRow} {cid jid : String}
    {r : RankingRow} (b : ScoreBundle) (nid : String) (t : ℚ)
    (h : findOneRanking store cid jid = some r) :
    getOrGenerateRanking store cid jid b nid t = (store, r) := by
  unfold getOrGenerateRanking
  rw [h]

/-- The get-or-generate step when no row for the pair exists. -/
theorem getOrGenerate_of_none {store : List RankingRow} {cid jid : String}
    (b : ScoreBundle) (nid : String) (t : ℚ)
    (h : findOneRanking store cid jid = none) :
    getOrGenerateRanking store cid jid b nid t
      = (store ++ [mkRankingRow cid jid b nid t], mkRankingRow cid jid b nid t) := by
  unfold getOrGenerateRanking
  rw [h]

/-- C4 (amended): the get-or-generate step never creates a second row for a
(candidate, job) pair — the pair's row count becomes `max(previous, 1)` —
but when a row already exists it is returned unchanged: after two successive
upserts with different score bundles, a read returns the FIRST bundle's
score values and timestamp (the existing row is not updated in place). -/
theorem C4_upsert_amended :
    (∀ store cid jid b nid t,
      pairCount ((getOrGenerateRanking store cid jid b nid t).1) cid jid
        = max (pairCount store cid jid) 1)
    ∧ (∀ store cid jid b1 b2 id1 id2 t1 t2,
        findOneRanking store cid jid = none →
        (getOrGenerateRanking
            ((getOrGenerateRanking store cid jid b1 id1 t1).1)
            cid jid b2 id2 t2).1
          = (getOrGenerateRanking store cid jid b1 id1 t1).1
        ∧ (findOneRanking
            ((getOrGenerateRanking
                ((getOrGenerateRanking store cid jid b1 id1 t1).1)
                cid jid b2 id2 t2).1) cid jid).map RankingRow.match_score
          = some b1.overall_score
        ∧ (findOneRanking
            ((getOrGenerateRanking
                ((getOrGenerateRanking store cid jid b1 id1 t1).1)
                cid jid b2 id2 t2).1) cid jid).map RankingRow.ranking_date
          = some t1) := by
  constructor
  · intro store cid jid b nid t
    cases hfind : findOneRanking store cid jid with
    | some r =>
      rw [getOrGenerate_of_found b nid t hfind]
      have hmem := List.mem_of_find?_eq_some hfind
      have hpr := List.find?_some hfind
      have hpos : 0 < pairCount store cid jid :=
        List.countP_pos_iff.mpr ⟨r, hmem, hpr⟩
      exact (max_eq_left hpos).symm
    | none =>
      rw [getOrGenerate_of_none b nid t hfind]
      have hzero : pairCount store cid jid = 0 := by
        rw [pairCount, List.countP_eq_zero]
        intro a ha
        have := List.find?_eq_none.mp hfind a ha
        simpa using this
      simp only [pairCount, List.countP_append] at hzero ⊢
      rw [hzero]
      simp [List.countP_cons, mkRankingRow]
  · intro store cid jid b1 b2 id1 id2 t1 t2 hnone
    have hs1 : (getOrGenerateRanking store cid jid b1 id1 t1).1
        = store ++ [mkRankingRow cid jid b1 id1 t1] := by
      rw [getOrGenerate_of_none b1 id1 t1 hnone]
    have hfind1 : findOneRanking ((getOrGenerateRanking store cid jid b1 id1 t1).1) cid jid
        = some (mkRankingRow cid jid b1 id1 t1) := by
      rw [hs1, findOneRanking, find?_append_of_none _ _ _ hnone]
      simp [List.find?_cons, mkRankingRow]
    have hs2 : (getOrGenerateRanking
        ((getOrGenerateRanking store cid jid b1 id1 t1).1) cid jid b2 id2 t2).1
        = (getOrGenerateRanking store cid jid b1 id1 t1).1 := by
      rw [getOrGenerate_of_found b2 id2 t2 hfind1]
    refine ⟨hs2, ?_, ?_⟩ <;> rw [hs2, hfind1] <;> rfl

/-- Witness for C4 (amended) on a concrete store: the pair count after an
insert into the empty store is 1, and the second upsert leaves the store of
the first one unchanged. -/
theorem C4_upsert_amended_witness :
    pairCount ((getOrGenerateRanking [] "c" "j" ⟨80, 70, 60, 50⟩ "id1" 1).1) "c" "j"
      = max (pairCount [] "c" "j") 1
    ∧ (getOrGenerateRanking
        ((getOrGenerateRanking [] "c" "j" ⟨80, 70, 60, 50⟩ "id1" 1).1)
        "c" "j" ⟨90, 95, 85, 75⟩ "id2" 2).1
      = (getOrGenerateRanking [] "c" "j" ⟨80, 70, 60, 50⟩ "id1" 1).1 := by
  exact ⟨C4_upsert_amended.1 [] "c" "j" ⟨80, 70, 60, 50⟩ "id1" 1,
    (C4_upsert_amended.2 [] "c" "j" ⟨80, 70, 60, 50⟩ ⟨90, 95, 85, 75⟩
      "id1" "id2" 1 2 rfl).1⟩

/-! ## Theorems: cohort reorder -/

/-- C3 (the code at the claimed contract's input): the reorder step of
`get_candidate_rankings` returns the empty list for an empty cohort, but for
every non-empty cohort its persistence loop raises `AttributeError` on
`ranking.id` (the `CandidateRanking` model has no `id` field), so the
claimed contract is never delivered for N ≥ 1; moreover the in-memory sort
it would have produced breaks ties by input order, not by ascending
candidate id: for the equal-score cohort [cexB, cexA] (candidate ids "b"
and "a"), "b" receives position 1. -/
theorem C3_reorder_attribute_error :
    updateRankingPositions [] = .ok []
    ∧ (∀ r rs, updateRankingPositions (r :: rs)
        = .error "AttributeError: 'CandidateRanking' object has no attribute 'id'")
    ∧ (renumberRankings [cexB, cexA]).map
        (fun r => (r.candidate_id, r.ranking_position)) = [("b", 1), ("a", 2)]
    ∧ cexB.match_score = cexA.match_score := by
  have hsorted : ∀ (l : List CandidateRanking),
      (sortRankings l).length = l.length := by
    intro l
    exact (List.mergeSort_perm l _).length_eq
  refine ⟨?_, ?_, ?_, rfl⟩
  · have h0 : renumberRankings [] = [] := by
      unfold renumberRankings sortRankings
      rw [List.mergeSort_nil]
      rfl
    unfold updateRankingPositions
    rw [h0]
  · intro r rs
    have hlen : (renumberRankings (r :: rs)).length = rs.length + 1 := by
      unfold renumberRankings
      rw [List.length_map, List.enum_length, hsorted]
      rfl
    obtain ⟨x, xs, hcons⟩ :=
      List.exists_cons_of_ne_nil
        (show renumberRankings (r :: rs) ≠ [] from by
          intro hnil
          rw [hnil] at hlen
          simp at hlen)
    unfold updateRankingPositions
    rw [hcons]
  · have hsort : sortRankings [cexB, cexA] = [cexB, cexA] := by
      apply List.mergeSort_of_sorted
      refine List.pairwise_cons.mpr ⟨?_, List.pairwise_singleton _ _⟩
      intro b hb
      rw [List.mem_singleton.mp hb]
      simp [cexA, cexB]
    rw [renumberRankings, hsort]
    rfl

/-! ## Theorems: Bias Auditor -/

/-- Folding append-then-truncate over entries from an empty log keeps the
last 1000 entries. -/
theorem foldl_logAppendTrunc_eq_drop (es : List PVal) :
    es.foldl logAppendTrunc [] = es.drop (es.length - 1000) := by
  induction es using List.reverseRecOn with
  | nil => rfl
  | append_singleton es e ih =>
    rw [List.foldl_append, List.foldl_cons, List.foldl_nil, ih]
    unfold logAppendTrunc
    by_cases h : es.length < 1000
    · have h0 : es.length - 1000 = 0 := by omega
      rw [h0, List.drop_zero]
      rw [if_neg (by
        rw [List.length_append, List.length_cons, List.length_nil]
        omega)]
      have h1 : (es ++ [e]).length - 1000 = 0 := by
        rw [List.length_append, List.length_cons, List.length_nil]
        omega
      rw [h1, List.drop_zero]
    · have hlen : (es.drop (es.length - 1000) ++ [e]).length = 1001 := by
        rw [List.length_append, List.length_drop, List.length_cons, List.length_nil]
        omega
      rw [if_pos (by rw [hlen]; omega), hlen]
      rw [List.drop_append_of_le_length (by rw [List.length_drop]; omega)]
      rw [List.drop_drop]
      have h2 : (es ++ [e]).length - 1000 = es.length - 1000 + (1001 - 1000) := by
        rw [List.length_append, List.length_cons, List.length_nil]
        omega
      rw [h2]
      exact (List.drop_append_of_le_length (by omega)).symm

/-- The bias log after a call sequence is the last 1000 of its entries. -/
theorem biasLogsAfter_eq_drop (calls : List LogArgs) :
    biasLogsAfter calls = (calls.map mkLogEntry).drop (calls.length - 1000) := by
  have h : calls.foldl logBiasDetection [] = (calls.map mkLogEntry).foldl logAppendTrunc [] := by
    rw [List.foldl_map]
    rfl
  rw [biasLogsAfter, h, foldl_logAppendTrunc_eq_drop, List.length_map]

/-- C7: the bias log never exceeds its fixed capacity of 1000 entries, and
after 1001 logged evaluations (capacity + 1) the oldest entry is no longer
present while the newest (the last logged) is. -/
theorem C7_bias_log_capacity :
    (∀ calls : List LogArgs, (biasLogsAfter calls).length ≤ 1000)
    ∧ (∀ (a0 aN : LogArgs) (rest : List LogArgs),
        rest.length = 1000 →
        mkLogEntry a0 ∉ rest.map mkLogEntry →
        rest.getLast? = some aN →
        biasLogsAfter (a0 :: rest) = rest.map mkLogEntry
        ∧ mkLogEntry a0 ∉ biasLogsAfter (a0 :: rest)
        ∧ mkLogEntry aN ∈ biasLogsAfter (a0 :: rest)) := by
  constructor
  · intro calls
    rw [biasLogsAfter_eq_drop, List.length_drop, List.length_map]
    omega
  · intro a0 aN rest hlen hnotin hlast
    have heq : biasLogsAfter (a0 :: rest) = rest.map mkLogEntry := by
      rw [biasLogsAfter_eq_drop, List.map_cons]
      have h1 : (a0 :: rest).length - 1000 = 1 := by
        rw [List.length_cons, hlen]
      rw [h1, List.drop_succ_cons, List.drop_zero]
    refine ⟨heq, ?_, ?_⟩
    · rw [heq]; exact hnotin
    · rw [heq]
      exact List.mem_map.mpr ⟨aN, List.mem_of_getLast?_eq_some hlast, rfl⟩

/-- Witness for C7: 1001 log calls with pairwise distinct timestamps; the
first entry is evicted and the last remains. -/
theorem C7_bias_log_capacity_witness :
    (biasLogsAfter ((List.range 999).map logArgN ++ [logArgN 999])).length ≤ 1000
    ∧ biasLogsAfter (logArgN 1000 :: ((List.range 999).map logArgN ++ [logArgN 999]))
        = (((List.range 999).map logArgN ++ [logArgN 999]).map mkLogEntry)
    ∧ mkLogEntry (logArgN 1000)
        ∉ biasLogsAfter (logArgN 1000 :: ((List.range 999).map logArgN ++ [logArgN 999]))
    ∧ mkLogEntry (logArgN 999)
        ∈ biasLogsAfter (logArgN 1000 :: ((List.range 999).map logArgN ++ [logArgN 999])) := by
  have hlen : ((List.range 999).map logArgN ++ [logArgN 999]).length = 1000 := by
    rw [List.length_append, List.length_map, List.length_range]
    rfl
  have hnotin : mkLogEntry (logArgN 1000)
      ∉ ((List.range 999).map logArgN ++ [logArgN 999]).map mkLogEntry := by
    intro hmem
    rw [List.map_append, List.mem_append] at hmem
    rcases hmem with hmem | hmem
    · rw [List.map_map, List.mem_map] at hmem
      obtain ⟨k, hk, hke⟩ := hmem
      rw [List.mem_range] at hk
      have : ((k : ℚ)) = ((1000 : ℕ) : ℚ) := by
        have := congrArg (fun v => v.getKey? "timestamp") hke
        simpa [mkLogEntry, logArgN, PVal.getKey?, List.lookup] using this
      have : k = 1000 := by exact_mod_cast this
      omega
    · rw [List.map_cons, List.map_nil, List.mem_singleton] at hmem
      have : ((999 : ℕ) : ℚ) = ((1000 : ℕ) : ℚ) := by
        have := congrArg (fun v => v.getKey? "timestamp") hmem
        simpa [mkLogEntry, logArgN, PVal.getKey?, List.lookup] using this
      have h9 : (999 : ℕ) = 1000 := by exact_mod_cast this
      omega
  have hlast : ((List.range 999).map logArgN ++ [logArgN 999]).getLast?
      = some (logArgN 999) := List.getLast?_concat _
  have h2 := C7_bias_log_capacity.2 (logArgN 1000) (logArgN 999)
    ((List.range 999).map logArgN ++ [logArgN 999]) hlen hnotin hlast
  exact ⟨C7_bias_log_capacity.1 _, h2.1, h2.2.1, h2.2.2⟩

/-- The window test on a logger-built entry reads its timestamp. -/
theorem entryInWindow_mkLogEntry (cutoff : ℚ) (a : LogArgs) :
    entryInWindow cutoff (mkLogEntry a) = .ok (decide (cutoff ≤ a.now)) := rfl

/-- Logger-built entries carry no `bias_detected` key. -/
theorem mkLogEntry_no_bias_detected (a : LogArgs) :
    (mkLogEntry a).getKey? "bias_detected" = none := rfl

/-- The window filter keeps every logger-built entry inside the window. -/
theorem filterRecent_all_in (cutoff : ℚ) (calls : List LogArgs)
    (h : ∀ a ∈ calls, cutoff ≤ a.now) :
    filterRecent cutoff (calls.map mkLogEntry) = .ok (calls.map mkLogEntry) := by
  induction calls with
  | nil => rfl
  | cons a t ih =>
    rw [List.map_cons]
    rw [show filterRecent cutoff (mkLogEntry a :: t.map mkLogEntry) = (do
        let b ← entryInWindow cutoff (mkLogEntry a)
        let r ← filterRecent cutoff (t.map mkLogEntry)
        pure (if b then mkLogEntry a :: r else r)) from rfl]
    rw [entryInWindow_mkLogEntry, decide_eq_true (h a (List.mem_cons_self a t)),
      ih (fun x hx => h x (List.mem_cons_of_mem a hx))]
    rfl

/-- The detection-count generator raises `KeyError` on the first
logger-built entry. -/
theorem sumBiasDetected_mk_cons (a : LogArgs) (rest : List PVal) :
    sumBiasDetected (mkLogEntry a :: rest) = .error "KeyError: bias_detected" := by
  rw [show sumBiasDetected (mkLogEntry a :: rest) = (do
      let v ← match (mkLogEntry a).getKey? "bias_detected" with
        | some v => Except.ok v
        | none => Except.error "KeyError: bias_detected"
      let n ← sumBiasDetected rest
      pure (if pyTruthy v then n + 1 else n)) from rfl]
  rw [mkLogEntry_no_bias_detected]
  rfl

/-- C1 (the code at the claim's input): whenever the trailing window contains
at least one logged entry, `generate_bias_report` does NOT return the
statistics report: reading `log['bias_detected']` raises `KeyError` (the
logged entries have no such key), the `except` handler catches it, and the
returned dict carries only `error` and `period_days` — no detection rate,
per-dimension counts, mean aggregate score or `requires_attention` flag. -/
theorem C1_bias_report_keyerror (now window : ℚ) (calls : List LogArgs)
    (hne : calls ≠ [])
    (hwin : ∀ a ∈ calls, now - window ≤ a.now) :
    generate_bias_report now window (calls.map mkLogEntry)
      = .dict [("error", .str "KeyError: bias_detected"),
               ("period_days", .num window)]
    ∧ (generate_bias_report now window (calls.map mkLogEntry)).getKey?
        "bias_detection_rate" = none := by
  obtain ⟨a, t, rfl⟩ := List.exists_cons_of_ne_nil hne
  have hbody : generate_bias_report_body now window ((a :: t).map mkLogEntry)
      = .error "KeyError: bias_detected" := by
    unfold generate_bias_report_body
    simp only []
    rw [filterRecent_all_in _ _ hwin, List.map_cons]
    rfl
  constructor
  · rw [generate_bias_report, hbody]
  · rw [generate_bias_report, hbody]
    rfl

/-- Witness for C1: one logged entry (a triggered gender dimension with
confidence 0.3) inside a 30-day window at time 0. -/
theorem C1_bias_report_keyerror_witness :
    generate_bias_report 0 30
        (([⟨0, some "cand", [("gender", [("confidence", PVal.num (3/10))])], 80⟩]
          : List LogArgs).map mkLogEntry)
      = .dict [("error", .str "KeyError: bias_detected"), ("period_days", .num 30)]
    ∧ (generate_bias_report 0 30
        (([⟨0, some "cand", [("gender", [("confidence", PVal.num (3/10))])], 80⟩]
          : List LogArgs).map mkLogEntry)).getKey? "bias_detection_rate" = none := by
  exact C1_bias_report_keyerror 0 30 _ (by simp)
    (by
      intro a ha
      rw [List.mem_singleton] at ha
      subst ha
      norm_num)

/-! ## Theorems: Skill Ontology Graph — breadth-first search correctness -/

/-- Membership in one breadth expansion. -/
theorem mem_reachStep {g : KG} {R : List String} {v : String} :
    v ∈ reachStep g R
      ↔ v ∈ R ∨ (v ∈ kgNodeNames g ∧ v ∉ R ∧ ∃ u ∈ R, kgEdgeB g u v = true) := by
  simp only [reachStep, List.mem_append, List.mem_filter, Bool.and_eq_true,
    Bool.not_eq_true', List.any_eq_true, List.contains_eq_any_beq]
  constructor
  · rintro (h | ⟨hv, hc, u, hu, he⟩)
    · exact Or.inl h
    · refine Or.inr ⟨hv, ?_, u, hu, he⟩
      intro hvR
      have : (List.any R (fun x => v == x)) = true :=
        List.any_eq_true.mpr ⟨v, hvR, by simp⟩
      rw [this] at hc
      cases hc
  · rintro (h | ⟨hv, hnR, u, hu, he⟩)
    · exact Or.inl h
    · refine Or.inr ⟨hv, ?_, u, hu, he⟩
      rcases hany : List.any R (fun x => v == x) with _ | _
      · rfl
      · obtain ⟨x, hx, hbeq⟩ := List.any_eq_true.mp hany
        exact absurd (eq_of_beq hbeq ▸ hx) hnR

/-- The current set survives one expansion. -/
theorem subset_reachStep (g : KG) (R : List String) : R ⊆ reachStep g R :=
  fun _ hx => List.mem_append_left _ hx

/-- `reach` is monotone in the depth. -/
theorem reach_subset_succ (g : KG) (a : String) (n : ℕ) :
    reach g a n ⊆ reach g a (n + 1) :=
  subset_reachStep g (reach g a n)

/-- `reach` is monotone in the depth (general form). -/
theorem reach_mono (g : KG) (a : String) {m n : ℕ} (h : m ≤ n) :
    reach g a m ⊆ reach g a n := by
  induction n with
  | zero =>
    rw [Nat.le_zero.mp h]
    exact fun x hx => hx
  | succ n ih =>
    rcases Nat.lt_or_ge m (n + 1) with h' | h'
    · exact fun x hx => reach_subset_succ g a n (ih (Nat.lt_succ_iff.mp h') hx)
    · rw [Nat.le_antisymm h h']
      exact fun x hx => hx

/-- A stabilised reachable set stays fixed forever. -/
theorem reach_stable (g : KG) (a : String) {n : ℕ}
    (h : reach g a (n + 1) = reach g a n) :
    ∀ k, reach g a (n + k) = reach g a n := by
  intro k
  induction k with
  | zero => rfl
  | succ k ih =>
    have : reach g a (n + (k + 1)) = reachStep g (reach g a (n + k)) := rfl
    rw [this, ih]
    exact h

/-- Everything reachable lies in the graph's node list (or is the source). -/
theorem reach_subset_nodes (g : KG) (a : String) (n : ℕ) :
    reach g a n ⊆ a :: kgNodeNames g := by
  induction n with
  | zero =>
    intro x hx
    rw [reach, List.mem_singleton] at hx
    exact hx ▸ List.mem_cons_self _ _
  | succ n ih =>
    intro x hx
    rcases mem_reachStep.mp hx with h | ⟨hv, _, _⟩
    · exact ih h
    · exact List.mem_cons_of_mem _ hv

/-- The reachable sets are duplicate-free when the node list is. -/
theorem reach_nodup (g : KG) (a : String)
    (hnd : (kgNodeNames g).Nodup) (n : ℕ) : (reach g a n).Nodup := by
  induction n with
  | zero => exact List.nodup_singleton a
  | succ n ih =>
    rw [reach, reachStep]
    rw [List.nodup_append]
    refine ⟨ih, List.Nodup.filter _ hnd, ?_⟩
    intro x hx hx'
    rw [List.mem_filter, Bool.and_eq_true, Bool.not_eq_true'] at hx'
    have hc := hx'.2.1
    have : (reach g a n).contains x = true := by
      rw [List.contains_eq_any_beq]
      exact List.any_eq_true.mpr ⟨x, hx, by simp⟩
    rw [this] at hc
    cases hc

/-- A breadth expansion either stabilises or strictly grows. -/
theorem reachStep_grow (g : KG) (R : List String) :
    reachStep g R = R ∨ R.length + 1 ≤ (reachStep g R).length := by
  rw [reachStep]
  cases hf : (kgNodeNames g).filter
      (fun v => !R.contains v && R.any (fun u => kgEdgeB g u v)) with
  | nil => exact Or.inl (by rw [List.append_nil])
  | cons x xs =>
    refine Or.inr ?_
    rw [List.length_append, List.length_cons]
    omega

/-- The reachable set stabilises within `|nodes|` expansions. -/
theorem reach_stabilises (g : KG) (a : String)
    (hnd : (kgNodeNames g).Nodup) :
    ∃ n ≤ (kgNodeNames g).length, reach g a (n + 1) = reach g a n := by
  by_contra hcon
  push_neg at hcon
  have hgrow : ∀ n, n ≤ (kgNodeNames g).length + 1 → n + 1 ≤ (reach g a n).length := by
    intro n
    induction n with
    | zero => intro _; rw [reach, List.length_singleton]
    | succ n ih =>
      intro hn
      have hne := hcon n (by omega)
      rcases reachStep_grow g (reach g a n) with h | h
      · exact absurd h hne
      · have := ih (by omega)
        calc n + 1 + 1 ≤ (reach g a n).length + 1 := by omega
          _ ≤ (reachStep g (reach g a n)).length := h
  have hbound : (reach g a ((kgNodeNames g).length + 1)).length
      ≤ (kgNodeNames g).length + 1 := by
    have hsub := reach_subset_nodes g a ((kgNodeNames g).length + 1)
    have hnodup := reach_nodup g a hnd ((kgNodeNames g).length + 1)
    calc (reach g a ((kgNodeNames g).length + 1)).length
        ≤ (a :: kgNodeNames g).length := (hnodup.subperm hsub).length_le
      _ = (kgNodeNames g).length + 1 := by rw [List.length_cons]
  have := hgrow ((kgNodeNames g).length + 1) (le_refl _)
  omega

/-- Every reachable set is contained in the one at depth `|nodes|`. -/
theorem reach_le_cap (g : KG) (a : String)
    (hnd : (kgNodeNames g).Nodup) (m : ℕ) :
    reach g a m ⊆ reach g a (kgNodeNames g).length := by
  obtain ⟨n0, hn0, hstab⟩ := reach_stabilises g a hnd
  rcases Nat.le_total m n0 with h | h
  · exact fun x hx => reach_mono g a hn0 (reach_mono g a h hx)
  · obtain ⟨k, rfl⟩ := Nat.exists_eq_add_of_le h
    intro x hx
    rw [reach_stable g a hstab k] at hx
    exact reach_mono g a hn0 hx

/-- `contains` agrees with membership for strings. -/
theorem contains_iff_mem {l : List String} {x : String} :
    l.contains x = true ↔ x ∈ l := by
  rw [List.contains_eq_any_beq, List.any_eq_true]
  constructor
  · rintro ⟨y, hy, hbeq⟩
    exact (eq_of_beq hbeq) ▸ hy
  · intro hx
    exact ⟨x, hx, by simp⟩

/-- `kgHasNode` agrees with membership in the node-name list. -/
theorem kgHasNode_iff {g : KG} {x : String} :
    kgHasNode g x = true ↔ x ∈ kgNodeNames g := by
  rw [kgHasNode, List.any_eq_true, kgNodeNames]
  constructor
  · rintro ⟨p, hp, hbeq⟩
    exact List.mem_map.mpr ⟨p, hp, eq_of_beq hbeq⟩
  · intro hx
    obtain ⟨p, hp, hpx⟩ := List.mem_map.mp hx
    exact ⟨p, hp, hpx ▸ by simp⟩

/-- A zero-length path starts where it ends. -/
theorem hasPathLen_zero {g : KG} {a b : String} (h : HasPathLen g a b 0) :
    b = a := by
  cases h
  rfl

/-- A positive-length path decomposes at its last edge. -/
theorem hasPathLen_succ {g : KG} {a b : String} {n : ℕ}
    (h : HasPathLen g a b (n + 1)) :
    ∃ u, HasPathLen g a u n ∧ kgEdgeB g u b = true := by
  cases h with
  | tail hp he => exact ⟨_, hp, he⟩

/-- The source of a path with at least one edge is a graph node. -/
theorem hasPathLen_src_mem {g : KG}
    (hcl : ∀ u v, kgEdgeB g u v = true →
      u ∈ kgNodeNames g ∧ v ∈ kgNodeNames g)
    {a b : String} {n : ℕ} (h : HasPathLen g a b (n + 1)) :
    a ∈ kgNodeNames g := by
  induction n generalizing b with
  | zero =>
    obtain ⟨u, hpu, he⟩ := hasPathLen_succ h
    have hua : u = a := hasPathLen_zero hpu
    exact hua ▸ (hcl u b he).1
  | succ n ih =>
    obtain ⟨u, hpu, _⟩ := hasPathLen_succ h
    exact ih hpu

/-- `b` is reachable within `n` hops iff a directed path of length at most
`n` exists. -/
theorem mem_reach_iff {g : KG} (a : String)
    (hcl : ∀ u v, kgEdgeB g u v = true →
      u ∈ kgNodeNames g ∧ v ∈ kgNodeNames g) :
    ∀ (n : ℕ) (b : String),
      b ∈ reach g a n ↔ ∃ k ≤ n, HasPathLen g a b k := by
  intro n
  induction n with
  | zero =>
    intro b
    rw [reach, List.mem_singleton]
    constructor
    · rintro rfl
      exact ⟨0, le_refl 0, HasPathLen.refl⟩
    · rintro ⟨k, hk, hp⟩
      rw [Nat.le_zero.mp hk] at hp
      exact hasPathLen_zero hp
  | succ n ih =>
    intro b
    rw [show reach g a (n + 1) = reachStep g (reach g a n) from rfl, mem_reachStep]
    constructor
    · rintro (h | ⟨_, _, u, hu, he⟩)
      · obtain ⟨k, hk, hp⟩ := (ih b).mp h
        exact ⟨k, Nat.le_succ_of_le hk, hp⟩
      · obtain ⟨k, hk, hp⟩ := (ih u).mp hu
        exact ⟨k + 1, by omega, HasPathLen.tail hp he⟩
    · rintro ⟨k, hk, hp⟩
      rcases Nat.lt_or_ge k (n + 1) with hlt | hge
      · exact Or.inl ((ih b).mpr ⟨k, by omega, hp⟩)
      · have hkeq : k = n + 1 := by omega
        subst hkeq
        obtain ⟨u, hpu, he⟩ := hasPathLen_succ hp
        have hu : u ∈ reach g a n := (ih u).mpr ⟨n, le_refl n, hpu⟩
        by_cases hb : b ∈ reach g a n
        · exact Or.inl hb
        · exact Or.inr ⟨(hcl u b he).2, hb, u, hu, he⟩

/-- A successful search returns the least depth at which `b` is reachable. -/
theorem bfsAux_some {g : KG} {a b : String} :
    ∀ (fuel k L : ℕ), bfsAux g b fuel (reach g a k) k = some L →
      b ∈ reach g a L ∧ k ≤ L ∧ ∀ m, k ≤ m → m < L → b ∉ reach g a m := by
  intro fuel
  induction fuel with
  | zero =>
    intro k L h
    cases h
  | succ fuel ih =>
    intro k L h
    rw [bfsAux] at h
    by_cases hb : (reach g a k).contains b = true
    · rw [if_pos hb] at h
      have hkL : k = L := Option.some.inj h
      subst hkL
      exact ⟨contains_iff_mem.mp hb, le_refl k, fun m h1 h2 => by omega⟩
    · rw [if_neg hb] at h
      simp only [] at h
      by_cases hst : reachStep g (reach g a k) = reach g a k
      · rw [if_pos hst] at h
        cases h
      · rw [if_neg hst] at h
        have h' : bfsAux g b fuel (reach g a (k + 1)) (k + 1) = some L := h
        obtain ⟨hmem, hk1, hmin⟩ := ih (k + 1) L h'
        refine ⟨hmem, by omega, ?_⟩
        intro m hm1 hm2
        rcases Nat.eq_or_lt_of_le hm1 with rfl | hlt
        · intro hmm
          exact hb (contains_iff_mem.mpr hmm)
        · exact hmin m hlt hm2

/-- When `b` is never reachable the search returns `none`. -/
theorem bfsAux_none_of_no_mem {g : KG} {a b : String}
    (hnone : ∀ m, b ∉ reach g a m) :
    ∀ (fuel k : ℕ), bfsAux g b fuel (reach g a k) k = none := by
  intro fuel
  induction fuel with
  | zero => intro k; rfl
  | succ fuel ih =>
    intro k
    rw [bfsAux]
    rw [if_neg (fun hb => hnone k (contains_iff_mem.mp hb))]
    simp only []
    by_cases hst : reachStep g (reach g a k) = reach g a k
    · rw [if_pos hst]
    · rw [if_neg hst]
      exact ih (k + 1)

/-- When `b` is reachable and the fuel suffices, the search succeeds. -/
theorem bfsAux_isSome {g : KG} {a b : String} {n : ℕ}
    (hmem : b ∈ reach g a n) :
    ∀ (fuel k : ℕ), k ≤ n → n < k + fuel →
      (bfsAux g b fuel (reach g a k) k).isSome := by
  intro fuel
  induction fuel with
  | zero =>
    intro k hk hf
    omega
  | succ fuel ih =>
    intro k hk hf
    rw [bfsAux]
    by_cases hb : (reach g a k).contains b = true
    · rw [if_pos hb]
      rfl
    · rw [if_neg hb]
      simp only []
      have hkn : k < n := by
        rcases Nat.eq_or_lt_of_le hk with rfl | h
        · exact absurd (contains_iff_mem.mpr hmem) hb
        · exact h
      by_cases hst : reachStep g (reach g a k) = reach g a k
      · exfalso
        have hstab : ∀ j, reach g a (k + j) = reach g a k :=
          reach_stable g a (show reach g a (k + 1) = reach g a k from hst)
        have : b ∈ reach g a (k + (n - k)) := by
          rw [show k + (n - k) = n from by omega]
          exact hmem
        rw [hstab (n - k)] at this
        exact hb (contains_iff_mem.mpr this)
      · rw [if_neg hst]
        exact ih (k + 1) (by omega) (by omega)

/-- `nx.shortest_path_length` returns the directed shortest-path length. -/
theorem shortestPathLength_eq_some {g : KG}
    (hnd : (kgNodeNames g).Nodup)
    (hcl : ∀ u v, kgEdgeB g u v = true →
      u ∈ kgNodeNames g ∧ v ∈ kgNodeNames g)
    {a b : String} {L : ℕ} (h : IsShortestPathLen g a b L) :
    shortestPathLength g a b = some L := by
  have hmemL : b ∈ reach g a L := (mem_reach_iff a hcl L b).mpr ⟨L, le_refl L, h.1⟩
  have hmemN : b ∈ reach g a (kgNodeNames g).length :=
    reach_le_cap g a hnd L hmemL
  have hsome := bfsAux_isSome hmemN ((kgNodeNames g).length + 1) 0
    (Nat.zero_le _) (by omega)
  obtain ⟨L', hL'⟩ := Option.isSome_iff_exists.mp hsome
  have hL'' : bfsAux g b ((kgNodeNames g).length + 1) (reach g a 0) 0 = some L' := hL'
  obtain ⟨hmem', _, hmin⟩ := bfsAux_some ((kgNodeNames g).length + 1) 0 L' hL''
  have h1 : L ≤ L' := by
    obtain ⟨k, hk, hp⟩ := (mem_reach_iff a hcl L' b).mp hmem'
    exact le_trans (h.2 k hp) hk
  have h2 : ¬ L < L' := fun hlt => hmin L (Nat.zero_le L) hlt hmemL
  have : L' = L := by omega
  subst this
  exact hL''

/-- `nx.shortest_path_length` raises `NetworkXNoPath` exactly when no
directed path exists. -/
theorem shortestPathLength_eq_none {g : KG}
    (hcl : ∀ u v, kgEdgeB g u v = true →
      u ∈ kgNodeNames g ∧ v ∈ kgNodeNames g)
    {a b : String} (hnopath : ∀ n, ¬ HasPathLen g a b n) :
    shortestPathLength g a b = none := by
  have hnone : ∀ m, b ∉ reach g a m := by
    intro m hm
    obtain ⟨k, _, hp⟩ := (mem_reach_iff a hcl m b).mp hm
    exact hnopath k hp
  exact bfsAux_none_of_no_mem hnone ((kgNodeNames g).length + 1) 0

/-- The built knowledge graph has duplicate-free node names. -/
theorem kg_nodup : (kgNodeNames knowledge_graph).Nodup := by
  with_unfolding_all decide

/-- Every edge of the built knowledge graph joins two graph nodes. -/
theorem kg_edges_closed : ∀ e ∈ knowledge_graph.edges,
    e.1.1 ∈ kgNodeNames knowledge_graph ∧ e.1.2 ∈ kgNodeNames knowledge_graph := by
  with_unfolding_all decide

/-- Edge-test form of `kg_edges_closed`. -/
theorem kg_closed : ∀ u v, kgEdgeB knowledge_graph u v = true →
    u ∈ kgNodeNames knowledge_graph ∧ v ∈ kgNodeNames knowledge_graph := by
  intro u v h
  rw [kgEdgeB, List.any_eq_true] at h
  obtain ⟨e, he, hbeq⟩ := h
  rw [Bool.and_eq_true] at hbeq
  have hu := eq_of_beq hbeq.1
  have hv := eq_of_beq hbeq.2
  obtain ⟨h1, h2⟩ := kg_edges_closed e he
  exact ⟨hu ▸ h1, hv ▸ h2⟩

/-- No directed path reaches "postgresql" from "python" (category nodes are
edge sinks, so python's component never meets the databases). -/
theorem no_path_python_postgresql :
    ∀ n, ¬ HasPathLen knowledge_graph "python" "postgresql" n := by
  have hcap : "postgresql" ∉
      reach knowledge_graph "python" (kgNodeNames knowledge_graph).length := by
    with_unfolding_all decide
  intro n hp
  have hmem := (mem_reach_iff "python" kg_closed n "postgresql").mpr
    ⟨n, le_refl n, hp⟩
  exact hcap (reach_le_cap knowledge_graph "python" kg_nodup n hmem)

/-- No directed path reaches "postgresql" from "django" either. -/
theorem no_path_django_postgresql :
    ∀ n, ¬ HasPathLen knowledge_graph "django" "postgresql" n := by
  have hcap : "postgresql" ∉
      reach knowledge_graph "django" (kgNodeNames knowledge_graph).length := by
    with_unfolding_all decide
  intro n hp
  have hmem := (mem_reach_iff "django" kg_closed n "postgresql").mpr
    ⟨n, le_refl n, hp⟩
  exact hcap (reach_le_cap knowledge_graph "django" kg_nodup n hmem)

/-- C5: `calculate_skill_similarity` returns 1.0 when the skills are equal;
0.0 when (the skills differ and) either node is absent from the graph or no
directed path exists; and `1 / (1 + L)` where `L` is the directed
shortest-path length counting edges regardless of kind. -/
theorem C5_skill_similarity :
    (∀ a, calculate_skill_similarity knowledge_graph a a = 1)
    ∧ (∀ a b, a ≠ b →
        (kgHasNode knowledge_graph a = false ∨ kgHasNode knowledge_graph b = false) →
        calculate_skill_similarity knowledge_graph a b = 0)
    ∧ (∀ a b, a ≠ b → (∀ n, ¬ HasPathLen knowledge_graph a b n) →
        calculate_skill_similarity knowledge_graph a b = 0)
    ∧ (∀ a b L, a ≠ b → IsShortestPathLen knowledge_graph a b L →
        calculate_skill_similarity knowledge_graph a b = 1 / (1 + (L : ℚ))) := by
  refine ⟨?_, ?_, ?_, ?_⟩
  · intro a
    rw [calculate_skill_similarity, if_pos rfl]
  · intro a b hne hab
    rw [calculate_skill_similarity, if_neg hne, if_pos (by
      rcases hab with h | h <;> simp [h])]
  · intro a b hne hnp
    rw [calculate_skill_similarity, if_neg hne]
    cases hC : (!kgHasNode knowledge_graph a || !kgHasNode knowledge_graph b) with
    | true => rw [if_pos rfl]
    | false =>
      rw [if_neg (by simp), shortestPathLength_eq_none kg_closed hnp]
  · intro a b L hne hsp
    obtain ⟨n, rfl⟩ : ∃ n, L = n + 1 := by
      cases L with
      | zero => exact absurd (hasPathLen_zero hsp.1).symm hne
      | succ n => exact ⟨n, rfl⟩
    have ha : a ∈ kgNodeNames knowledge_graph := hasPathLen_src_mem kg_closed hsp.1
    have hb : b ∈ kgNodeNames knowledge_graph := by
      obtain ⟨u, _, he⟩ := hasPathLen_succ hsp.1
      exact (kg_closed u b he).2
    rw [calculate_skill_similarity, if_neg hne, if_neg (by
      simp [kgHasNode_iff.mpr ha, kgHasNode_iff.mpr hb])]
    rw [shortestPathLength_eq_some kg_nodup kg_closed hsp]

/-- Witness for C5: `similarity("python","python") = 1`;
`similarity("python","oracle") = 0` ("oracle" is not a node);
`similarity("python","postgresql") = 0` (no directed path);
`similarity("sql","postgresql") = 1/(1+1)` (one `related` edge). -/
theorem C5_skill_similarity_witness :
    calculate_skill_similarity knowledge_graph "python" "python" = 1
    ∧ calculate_skill_similarity knowledge_graph "python" "oracle" = 0
    ∧ calculate_skill_similarity knowledge_graph "python" "postgresql" = 0
    ∧ calculate_skill_similarity knowledge_graph "sql" "postgresql"
        = 1 / (1 + ((1 : ℕ) : ℚ)) := by
  refine ⟨C5_skill_similarity.1 "python", ?_, ?_, ?_⟩
  · exact C5_skill_similarity.2.1 "python" "oracle" (by decide)
      (Or.inr (by with_unfolding_all rfl))
  · exact C5_skill_similarity.2.2.1 "python" "postgresql" (by decide)
      no_path_python_postgresql
  · refine C5_skill_similarity.2.2.2 "sql" "postgresql" 1 (by decide) ⟨?_, ?_⟩
    · exact HasPathLen.tail HasPathLen.refl (by with_unfolding_all rfl)
    · intro m hm
      cases m with
      | zero => exact absurd (hasPathLen_zero hm) (by decide)
      | succ m => omega

/-- C2 (counterexample to the claim as stated): for the candidate skills
["python","django"] against required ["python","postgresql"], the matcher
does NOT match "postgresql" — the matched target list is only ["python"],
and "postgresql" is reported missing. -/
theorem C2_semantic_match_counterexample :
    ¬ ((findSemanticMatches knowledge_graph ["python", "django"]
          ["python", "postgresql"]).map (fun m => m.target_skill)
        = ["python", "postgresql"]
      ∧ (identifySkillGaps knowledge_graph ["python", "django"]
          ["python", "postgresql"]).map SkillGap.missing_skill = []) := by
  intro h
  exact absurd h.1 (by with_unfolding_all decide)

/-- C2 (amended): for candidate skills ["python","django"] and required
["python","postgresql"], the matcher finds the exact match on "python" only;
"postgresql" has no directed path from either candidate skill, so its
similarity is 0 (not > 0.3), it gets no semantic match, and it is the one
missing skill. -/
theorem C2_semantic_match_amended :
    (findSemanticMatches knowledge_graph ["python", "django"]
        ["python", "postgresql"]).map
        (fun m => (m.target_skill, m.match_type, m.similarity))
      = [("python", "exact", 1)]
    ∧ (identifySkillGaps knowledge_graph ["python", "django"]
        ["python", "postgresql"]).map SkillGap.missing_skill = ["postgresql"]
    ∧ calculate_skill_similarity knowledge_graph "python" "postgresql" = 0
    ∧ calculate_skill_similarity knowledge_graph "django" "postgresql" = 0
    ∧ (∀ n, ¬ HasPathLen knowledge_graph "python" "postgresql" n)
    ∧ (∀ n, ¬ HasPathLen knowledge_graph "django" "postgresql" n) := by
  refine ⟨by with_unfolding_all rfl, by with_unfolding_all rfl,
    by with_unfolding_all rfl, by with_unfolding_all rfl,
    no_path_python_postgresql, no_path_django_postgresql⟩

end ResumeAnalyser
